import Mathlib

/-!
Verification of the SecureSync browser-extension core against its source:
`src/crypto/encryption.js` (key derivation, AES-GCM envelope seal/open,
password hashing/verification), `src/sync/conflict-resolver.js` (merge and
last-write-wins conflict resolution), `src/crypto/vault.js` (vault CRUD and
soft delete) and `src/sync/sync-service.js` (the sync pass and its
single-flight guard).

Modelling conventions:
* JS strings are represented by their character-code sequences (`List Nat`);
  `TextEncoder.encode` / `TextDecoder.decode` are the identity in this
  representation, and `Uint8Array` values are `List Nat` with entries `< 256`.
* The Web Crypto primitives (PBKDF2, SHA-256, HMAC-SHA512, AES-GCM) are opaque
  to the program; they are passed in as a `CryptoPrims` record of pure
  functions, and theorems assume exactly the properties the platform
  guarantees (AEAD round-trip / authentication) at the instance in question.
* `btoa` / `atob` are the platform's base64 codec (WHATWG forgiving-base64);
  they are implemented concretely below, with `atob` returning `none` where
  the platform function throws.
* `async`/`await` sequencing is modelled by explicit state passing; for the
  concurrency claim a two-task small-step machine with one program point per
  `await` boundary is used.
-/

namespace SecureSync

/-! ## Base64 (`btoa` / `atob`, and the helpers at encryption.js:298-314) -/

/-- Character code of the base64 digit with value `n < 64` (A-Z a-z 0-9 + /). -/
def b64char (n : Nat) : Nat :=
  if n < 26 then 65 + n
  else if n < 52 then 97 + (n - 26)
  else if n < 62 then 48 + (n - 52)
  else if n = 62 then 43
  else 47

/-- Value of a base64 digit character, `none` for a character outside the
alphabet (where `atob` throws `InvalidCharacterError`). -/
def b64val (c : Nat) : Option Nat :=
  if 65 ≤ c ∧ c ≤ 90 then some (c - 65)
  else if 97 ≤ c ∧ c ≤ 122 then some (26 + (c - 97))
  else if 48 ≤ c ∧ c ≤ 57 then some (52 + (c - 48))
  else if c = 43 then some 62
  else if c = 47 then some 63
  else none

/-- `btoa`: encode a binary string (bytes `< 256`) as base64 with padding. -/
def btoa : List Nat → List Nat
  | [] => []
  | [b0] => [b64char (b0 / 4), b64char (b0 % 4 * 16), 61, 61]
  | [b0, b1] => [b64char (b0 / 4), b64char (b0 % 4 * 16 + b1 / 16),
                 b64char (b1 % 16 * 4), 61]
  | b0 :: b1 :: b2 :: rest =>
      b64char (b0 / 4) :: b64char (b0 % 4 * 16 + b1 / 16) ::
      b64char (b1 % 16 * 4 + b2 / 64) :: b64char (b2 % 64) :: btoa rest

/-- Decode a final group of two base64 digits into one byte. -/
def dec2 (c0 c1 : Nat) : Option (List Nat) := do
  let s0 ← b64val c0
  let s1 ← b64val c1
  some [s0 * 4 + s1 / 16]

/-- Decode a final group of three base64 digits into two bytes. -/
def dec3 (c0 c1 c2 : Nat) : Option (List Nat) := do
  let s0 ← b64val c0
  let s1 ← b64val c1
  let s2 ← b64val c2
  some [s0 * 4 + s1 / 16, s1 % 16 * 16 + s2 / 4]

/-- Decode a full group of four base64 digits into three bytes. -/
def dec4 (c0 c1 c2 c3 : Nat) : Option (List Nat) := do
  let s0 ← b64val c0
  let s1 ← b64val c1
  let s2 ← b64val c2
  let s3 ← b64val c3
  some [s0 * 4 + s1 / 16, s1 % 16 * 16 + s2 / 4, s2 % 4 * 64 + s3]

/-- Decode the last four characters of a base64 string, honouring `=` padding
(one or two trailing `=` signs, as in forgiving-base64). -/
def dec4last (c0 c1 c2 c3 : Nat) : Option (List Nat) :=
  if c2 = 61 ∧ c3 = 61 then dec2 c0 c1
  else if c3 = 61 then dec3 c0 c1 c2
  else dec4 c0 c1 c2 c3

/-- Core of `atob` after whitespace removal: group-of-four decoding; a final
group of 2 or 3 digits is the unpadded form, a lone trailing digit is an
error, and `=` anywhere except final padding position hits `b64val 61 = none`. -/
def atobCore : List Nat → Option (List Nat)
  | [] => some []
  | [_] => none
  | [c0, c1] => dec2 c0 c1
  | [c0, c1, c2] => dec3 c0 c1 c2
  | [c0, c1, c2, c3] => dec4last c0 c1 c2 c3
  | c0 :: c1 :: c2 :: c3 :: c4 :: rest => do
      let bytes ← dec4 c0 c1 c2 c3
      let tail ← atobCore (c4 :: rest)
      some (bytes ++ tail)

/-- ASCII whitespace removed by forgiving-base64 before decoding. -/
def isB64Ws (c : Nat) : Bool := c = 9 ∨ c = 10 ∨ c = 12 ∨ c = 13 ∨ c = 32

/-- `atob`: WHATWG forgiving-base64 decode; `none` where the platform throws. -/
def atob (s : List Nat) : Option (List Nat) :=
  atobCore (s.filter (fun c => !isB64Ws c))

/-- `arrayBufferToBase64` (encryption.js:298-305): builds the binary string
from the bytes and calls `btoa`. -/
def arrayBufferToBase64 (buffer : List Nat) : List Nat := btoa buffer

/-- `base64ToArrayBuffer` (encryption.js:307-314): `atob` then char codes;
`none` models the `InvalidCharacterError` that `atob` throws on bad input. -/
def base64ToArrayBuffer (base64 : List Nat) : Option (List Nat) := atob base64

/-! ## Crypto module (`src/crypto/encryption.js`) -/

/-- Hash primitive selector passed to PBKDF2 (`hash: 'SHA-256'` / `'SHA-512'`). -/
inductive HashAlg
  | sha256
  | sha512
deriving DecidableEq

/-- The Web Crypto primitives used by encryption.js, as pure functions over
byte sequences.  `pbkdf2 h password salt iterations lengthBits` models
`deriveBits`/`deriveKey` with PBKDF2; `aeadEnc`/`aeadDec` model AES-256-GCM
`encrypt`/`decrypt` (key, iv, data), with `aeadDec` returning `none` where
authenticated decryption throws. -/
structure CryptoPrims where
  pbkdf2 : HashAlg → List Nat → List Nat → Nat → Nat → List Nat
  sha256 : List Nat → List Nat
  hmacSha512 : List Nat → List Nat → List Nat
  aeadEnc : List Nat → List Nat → List Nat → List Nat
  aeadDec : List Nat → List Nat → List Nat → Option (List Nat)

/-- `KEY_LENGTH = 256` (encryption.js:13). -/
def KEY_LENGTH : Nat := 256

/-- `PBKDF2_ITERATIONS = 600000` (encryption.js:14). -/
def PBKDF2_ITERATIONS : Nat := 600000

/-- `PEPPER = 'SecureSync-v1-pepper-2026'` (encryption.js:17), as char codes. -/
def PEPPER : List Nat :=
  [83, 101, 99, 117, 114, 101, 83, 121, 110, 99, 45, 118, 49, 45,
   112, 101, 112, 112, 101, 114, 45, 50, 48, 50, 54]

/-- `encoder.encode('round2')` (encryption.js:83), as char codes. -/
def ROUND2_SUFFIX : List Nat := [114, 111, 117, 110, 100, 50]

/-- `deriveKey(masterPassword, salt, iterations)` (encryption.js:45-116):
pepper the password, run PBKDF2-SHA256 with the caller's salt and iteration
count, export the intermediate key, hash `salt ++ 'round2'` with SHA-256 to
obtain the second salt, and run PBKDF2-SHA512 over the exported key with
`Math.floor(iterations / 2)` iterations.  `importKey`/`exportKey` are
transport no-ops in the byte model. -/
def deriveKey (pr : CryptoPrims) (masterPassword salt : List Nat)
    (iterations : Nat) : List Nat :=
  let pepperedPassword := masterPassword ++ PEPPER
  let intermediateKey := pr.pbkdf2 .sha256 pepperedPassword salt iterations KEY_LENGTH
  let exportedKey := intermediateKey
  let combinedSalt := salt ++ ROUND2_SUFFIX
  let secondSalt := pr.sha256 combinedSalt
  pr.pbkdf2 .sha512 exportedKey secondSalt (iterations / 2) KEY_LENGTH

/-- The key-derivation scheme as the specification words it: pepper the
secret with the fixed application-wide constant, round 1 with the
caller-supplied salt, the caller's work factor and SHA-256; round 2
re-derives from round 1's output with half the work factor, the SHA-256 hash
of (caller salt ‖ fixed constant) as salt, and SHA-512.  Stated separately
from `deriveKey` so the source definition can be compared against the
specification's description. -/
def deriveKeySpecDescribed (pr : CryptoPrims) (secret salt : List Nat)
    (workFactor : Nat) : List Nat :=
  let round1 := pr.pbkdf2 .sha256 (secret ++ PEPPER) salt workFactor KEY_LENGTH
  let round2Salt := pr.sha256 (salt ++ ROUND2_SUFFIX)
  pr.pbkdf2 .sha512 round1 round2Salt (workFactor / 2) KEY_LENGTH

/-- The encrypted envelope returned by `encrypt` (encryption.js:142-147):
base64-encoded ciphertext, salt and iv plus the stored iteration count
(`none` models an older envelope missing the field). -/
structure EncryptedData where
  ciphertext : List Nat
  salt : List Nat
  iv : List Nat
  iterations : Option Nat
deriving DecidableEq

/-- `encrypt(plaintext, masterPassword)` (encryption.js:124-148).  The fresh
random `salt` and `iv` produced by `generateSalt`/`generateIV` are passed in
as parameters (the RNG is an input of the model). -/
def encrypt (pr : CryptoPrims) (plaintext masterPassword salt iv : List Nat) :
    EncryptedData :=
  let data := plaintext
  let key := deriveKey pr masterPassword salt PBKDF2_ITERATIONS
  let ciphertext := pr.aeadEnc key iv data
  { ciphertext := arrayBufferToBase64 ciphertext
    salt := arrayBufferToBase64 salt
    iv := arrayBufferToBase64 iv
    iterations := some PBKDF2_ITERATIONS }

/-- How `decrypt` can fail: `invalidBase64` models the `InvalidCharacterError`
thrown by `atob` inside `base64ToArrayBuffer` (encryption.js:159-161, outside
the try/catch), `decryptionFailed` the single opaque error
`'Decryption failed. Invalid password or corrupted data.'` thrown by the
catch block (encryption.js:180). -/
inductive DecryptError
  | invalidBase64
  | decryptionFailed
deriving DecidableEq

/-- `iterations || 100000` (encryption.js:164): the stored count when present
and truthy, the legacy default 100000 when the field is absent or `0`. -/
def legacyIterCount (iterations : Option Nat) : Nat :=
  match iterations with
  | some n => if n = 0 then 100000 else n
  | none => 100000

/-- `decrypt(encryptedData, masterPassword)` (encryption.js:156-182):
base64-decode the three fields, fall back to the legacy iteration count
100000 when `iterations` is absent or `0` (JS falsiness of
`iterations || 100000`), re-derive the key, and attempt authenticated
decryption; any AEAD failure is caught and rethrown as the single opaque
error. -/
def decrypt (pr : CryptoPrims) (encryptedData : EncryptedData)
    (masterPassword : List Nat) : Except DecryptError (List Nat) :=
  match base64ToArrayBuffer encryptedData.ciphertext with
  | none => .error .invalidBase64
  | some ciphertextBuffer =>
  match base64ToArrayBuffer encryptedData.salt with
  | none => .error .invalidBase64
  | some saltBuffer =>
  match base64ToArrayBuffer encryptedData.iv with
  | none => .error .invalidBase64
  | some ivBuffer =>
    let iterCount := legacyIterCount encryptedData.iterations
    let key := deriveKey pr masterPassword saltBuffer iterCount
    match pr.aeadDec key ivBuffer ciphertextBuffer with
    | some decrypted => .ok decrypted
    | none => .error .decryptionFailed

/-- `constantTimeCompare(a, b)` (encryption.js:284-295): length check, then
OR-accumulate the XOR of each character pair. -/
def constantTimeCompare (a b : List Nat) : Bool :=
  if a.length ≠ b.length then false
  else ((a.zip b).foldl (fun result p => result ||| (p.1 ^^^ p.2)) 0) == 0

/-- The fields of the parsed stored hash that `verifyPassword` reads
(`hashData.salt`, `hashData.hash`); `none` models an absent (undefined)
field.  The unread `algorithm`/`version` fields are omitted. -/
structure HashRec where
  salt : Option (List Nat)
  hash : Option (List Nat)
deriving DecidableEq

/-- Char codes of the string `'undefined'`: JS coerces an undefined `salt`
field to this string before `atob` sees it. -/
def undefinedStr : List Nat := [117, 110, 100, 101, 102, 105, 110, 101, 100]

/-- `verifyPassword(password, storedHash)` (encryption.js:248-276).  The
argument `stored` is the result of `JSON.parse(storedHash)`: `none` when
parsing throws (caught, `false`).  An undefined `salt` reaches `atob` as the
string `'undefined'` (9 characters, so `atob` throws and the catch returns
`false`); an undefined `hash` makes `constantTimeCompare` dereference
`b.length` on undefined (TypeError, caught, `false`). -/
def verifyPassword (pr : CryptoPrims) (password : List Nat)
    (stored : Option HashRec) : Bool :=
  match stored with
  | none => false
  | some hashData =>
    let pepperedPassword := password ++ PEPPER
    match base64ToArrayBuffer (hashData.salt.getD undefinedStr) with
    | none => false
    | some salt =>
      let signature := pr.hmacSha512 salt pepperedPassword
      let computedHash := arrayBufferToBase64 signature
      match hashData.hash with
      | none => false
      | some storedH => constantTimeCompare computedHash storedH

/-! ## Conflict resolver (`src/sync/conflict-resolver.js`)

Items synchronized by the resolver are JSON objects read through `item.id`,
`item.updatedAt` and `JSON.stringify(item)`.  `updatedAt` is modelled by the
epoch-milliseconds value `new Date(item.updatedAt).getTime()` yields, and
`JSON.stringify` equality by structural equality; `data` stands for all the
remaining payload fields. -/

/-- A sync item as the resolver sees it. -/
structure Item where
  id : Nat
  updatedAt : Int
  data : Nat
deriving DecidableEq

/-- JS `Map.prototype.set`: replace in place if the key exists (keeping the
original insertion position), otherwise append. -/
def mapSet (m : List (Nat × Item)) (k : Nat) (v : Item) : List (Nat × Item) :=
  if m.any (fun p => p.1 == k) then
    m.map (fun p => if p.1 == k then (k, v) else p)
  else m ++ [(k, v)]

/-- `new Map(items.map(item => [item.id, item]))`: later duplicates overwrite
earlier ones; iteration order is first-insertion order. -/
def buildMap (items : List Item) : List (Nat × Item) :=
  items.foldl (fun m i => mapSet m i.id i) []

/-- `Map.prototype.get`. -/
def mapGet (m : List (Nat × Item)) (k : Nat) : Option Item :=
  (m.find? (fun p => p.1 == k)).map (fun p => p.2)

/-- A detected conflict (conflict-resolver.js:26-32).  The source fields
`local`/`remote` are named `locItem`/`remItem` (`local` is a Lean keyword). -/
structure Conflict where
  id : Nat
  locItem : Item
  remItem : Item
  localTime : Int
  remoteTime : Int
deriving DecidableEq

/-- The body of the `detectConflicts` loop for one local item: look the id up
in the remote map and record a conflict when content and timestamps both
differ (conflict-resolver.js:17-33). -/
def conflictCheck (remoteMap : List (Nat × Item)) (localItem : Item) :
    Option Conflict :=
  match mapGet remoteMap localItem.id with
  | some remoteItem =>
      if localItem ≠ remoteItem ∧ localItem.updatedAt ≠ remoteItem.updatedAt then
        some { id := localItem.id, locItem := localItem, remItem := remoteItem,
               localTime := localItem.updatedAt, remoteTime := remoteItem.updatedAt }
      else none
  | none => none

/-- `detectConflicts(localItems, remoteItems)` (conflict-resolver.js:11-38):
the loop pushes the conflict produced for each local item, when there is one
(`(conflictCheck …).toList` is `[c]` on a detected conflict, `[]` otherwise —
exactly the conditional `conflicts.push`). -/
def detectConflicts (localItems remoteItems : List Item) : List Conflict :=
  let remoteMap := buildMap remoteItems
  localItems.foldl (fun conflicts localItem =>
    conflicts ++ (conflictCheck remoteMap localItem).toList) []

/-- The `resolved` accumulator of `resolveConflictsLastWriteWins`. -/
structure Resolved where
  keepLocal : List Item
  keepRemote : List Item
deriving DecidableEq

/-- `resolveConflictsLastWriteWins(conflicts)` (conflict-resolver.js:45-60):
strictly greater `localTime` keeps local, otherwise (including ties) remote. -/
def resolveConflictsLastWriteWins (conflicts : List Conflict) : Resolved :=
  conflicts.foldl (fun resolved c =>
    if c.remoteTime < c.localTime then
      { resolved with keepLocal := resolved.keepLocal ++ [c.locItem] }
    else
      { resolved with keepRemote := resolved.keepRemote ++ [c.remItem] })
    { keepLocal := [], keepRemote := [] }

/-- Result of `mergeItems`. -/
structure MergeResult where
  merged : List Item
  conflicts : List Conflict
deriving DecidableEq

/-- `mergeItems(localItems, remoteItems, strategy)` (conflict-resolver.js:69-129).
No conflicts: union by id, newer side winning on shared ids (ties to remote).
Conflicts with `'last-write-wins'`: keep non-conflicting items of both sides
plus each conflict's winner, then collapse duplicates through a `Map`.
Any other strategy (`'manual'`): return the local items and the conflicts. -/
def mergeItems (localItems remoteItems : List Item) (strategy : String) :
    MergeResult :=
  let conflicts := detectConflicts localItems remoteItems
  if conflicts.length = 0 then
    let localMap := buildMap localItems
    let remoteMap := buildMap remoteItems
    let allIds := (localMap.map (fun p => p.1) ++ remoteMap.map (fun p => p.1)).foldl
      (fun s k => if k ∈ s then s else s ++ [k]) []
    let merged := allIds.foldl (fun merged id =>
      match mapGet localMap id, mapGet remoteMap id with
      | some l, some r => merged ++ [if r.updatedAt < l.updatedAt then l else r]
      | some l, none => merged ++ [l]
      | none, some r => merged ++ [r]
      | none, none => merged) []
    { merged := merged, conflicts := [] }
  else if strategy = "last-write-wins" then
    let resolution := resolveConflictsLastWriteWins conflicts
    let conflictIds := conflicts.map (fun c => c.id)
    let nonConflictLocal := localItems.filter (fun item => !conflictIds.contains item.id)
    let nonConflictRemote := remoteItems.filter (fun item => !conflictIds.contains item.id)
    let merged := nonConflictLocal ++ nonConflictRemote ++
      resolution.keepLocal ++ resolution.keepRemote
    let uniqueMap := buildMap merged
    { merged := uniqueMap.map (fun p => p.2), conflicts := [] }
  else
    { merged := localItems, conflicts := conflicts }

/-! ## Vault (`src/crypto/vault.js`)

Vault entries are JS objects; they are modelled as records of optional fields
(`none` = the field is absent/undefined).  Object spread `{...a, ...b}` is
`ObjFields.spread a b`.  Timestamps (`new Date().toISOString()`) are modelled
by their epoch value, passed in as the `now` parameter; `crypto.randomUUID()`
is the `uuid` parameter.  `deletedAt : Option (Option Int)` distinguishes an
absent field (`none`) from an explicit `null` (`some none`). -/

/-- A partial vault-entry object. -/
structure ObjFields where
  id : Option Nat := none
  data : Option Nat := none
  createdAt : Option Int := none
  updatedAt : Option Int := none
  deletedAt : Option (Option Int) := none
deriving DecidableEq

/-- JS object spread `{...a, ...b}`: fields present in `b` win. -/
def ObjFields.spread (a b : ObjFields) : ObjFields :=
  { id := b.id.orElse (fun _ => a.id)
    data := b.data.orElse (fun _ => a.data)
    createdAt := b.createdAt.orElse (fun _ => a.createdAt)
    updatedAt := b.updatedAt.orElse (fun _ => a.updatedAt)
    deletedAt := b.deletedAt.orElse (fun _ => a.deletedAt) }

/-- The entry literal built by `addPassword`/`addBookmark` (vault.js):
`{ id: crypto.randomUUID(), ...passwordEntry, createdAt: now, updatedAt: now,
deletedAt: null }`. -/
def buildEntry (uuid : Nat) (now : Int) (input : ObjFields) : ObjFields :=
  (({ id := some uuid } : ObjFields).spread input).spread
    { createdAt := some now, updatedAt := some now, deletedAt := some none }

/-- The decrypted vault working set (`vaultCache.passwords` /
`vaultCache.bookmarks`). -/
structure VaultData where
  passwords : List ObjFields
  bookmarks : List ObjFields
deriving DecidableEq

/-- `addPassword(passwordEntry)` on an unlocked vault: push the built entry
and return it. -/
def addPassword (uuid : Nat) (now : Int) (input : ObjFields) (v : VaultData) :
    ObjFields × VaultData :=
  let entry := buildEntry uuid now input
  (entry, { v with passwords := v.passwords ++ [entry] })

/-- `addBookmark(bookmarkEntry)` on an unlocked vault. -/
def addBookmark (uuid : Nat) (now : Int) (input : ObjFields) (v : VaultData) :
    ObjFields × VaultData :=
  let entry := buildEntry uuid now input
  (entry, { v with bookmarks := v.bookmarks ++ [entry] })

/-- `findIndex(p => p.id === id)` followed by replacing that element with
`f` of it; `none` when no element matches. -/
def updateAt (l : List ObjFields) (pid : Nat) (f : ObjFields → ObjFields) :
    Option (List ObjFields) :=
  match l with
  | [] => none
  | p :: rest =>
      if p.id = some pid then some (f p :: rest)
      else (updateAt rest pid f).map (fun r => p :: r)

/-- `updatePassword(id, updates)` (vault.js): `'Password not found'` when the
id is absent, otherwise replace the entry with
`{...existing, ...updates, updatedAt: now}`. -/
def updatePassword (now : Int) (pid : Nat) (updates : ObjFields)
    (v : VaultData) : Except String VaultData :=
  match updateAt v.passwords pid
      (fun old => (old.spread updates).spread { updatedAt := some now }) with
  | none => .error "Password not found"
  | some ps => .ok { v with passwords := ps }

/-- `deletePassword(id)` (vault.js): soft delete — only
`passwords[index].deletedAt = new Date().toISOString()` is assigned. -/
def deletePassword (now : Int) (pid : Nat) (v : VaultData) :
    Except String VaultData :=
  match updateAt v.passwords pid (fun old => { old with deletedAt := some (some now) }) with
  | none => .error "Password not found"
  | some ps => .ok { v with passwords := ps }

/-! ## Sync service (`src/sync/sync-service.js`) — sequential model

One complete `performSync` pass with explicit state passing.  The
collaborators (`isAuthenticated`, `fetchPasswords`/`uploadPasswords`,
`fetchBookmarks`/`uploadBookmarks`, the vault getters) are modelled by a
`SyncEnv` record holding the value or error each `await` produces; thrown
errors are `Except.error` with the thrown message and propagate exactly as
the source's rethrows do. -/

/-- Environment of one sync pass: what each external call returns. -/
structure SyncEnv where
  authed : Bool
  localPasswords : List Item
  remotePasswords : Except String (List Item)
  uploadPasswordsOk : Except String Unit
  localBookmarks : List Item
  remoteBookmarks : Except String (List Item)
  uploadBookmarksOk : Except String Unit
  conflictResolution : String

/-- The module-level mutable state the pass touches: the `isSyncing` flag,
the last-sync watermark and the offline queue. -/
structure SyncStoreState where
  isSyncing : Bool
  lastSync : Option Int
  queue : List Nat
deriving DecidableEq

/-- `syncPasswords(lastSync, conflictResolution)` (sync-service.js:378-403):
fetch both sides, merge, upload; the catch block rethrows, so errors
propagate unchanged.  Returns `(merged.length, conflicts.length)`. -/
def syncPasswords (env : SyncEnv) : Except String (Nat × Nat) := do
  let localPasswords := env.localPasswords
  let remotePasswords ← env.remotePasswords
  let r := mergeItems localPasswords remotePasswords env.conflictResolution
  let _ ← env.uploadPasswordsOk
  pure (r.merged.length, r.conflicts.length)

/-- `syncBookmarks(lastSync, conflictResolution)` (sync-service.js:408-430). -/
def syncBookmarks (env : SyncEnv) : Except String (Nat × Nat) := do
  let localBookmarks := env.localBookmarks
  let remoteBookmarks ← env.remoteBookmarks
  let r := mergeItems localBookmarks remoteBookmarks env.conflictResolution
  let _ ← env.uploadBookmarksOk
  pure (r.merged.length, r.conflicts.length)

/-- The value a completed `performSync` call resolves to. -/
inductive SyncReturn
  | inProgress
  | success (timestamp : Int) (passwords bookmarks : Nat × Nat)
deriving DecidableEq

/-- `performSync()` (sync-service.js:331-373), sequentially: the `isSyncing`
guard, the authentication check (thrown before the flag is set), both
collection syncs, the best-effort queue drain (`clearSyncQueue` afterwards),
the watermark update, and the catch block that resets `isSyncing` and
rethrows.  The queue entries are replayed against the vault, which is outside
this state record; only the drain-and-clear effect on the queue is kept. -/
def performSync (env : SyncEnv) (now : Int) (s : SyncStoreState) :
    Except String SyncReturn × SyncStoreState :=
  if s.isSyncing then (.ok .inProgress, s)
  else if !env.authed then (.error "Not authenticated. Please login first.", s)
  else
    let s1 : SyncStoreState := { s with isSyncing := true }
    match syncPasswords env with
    | .error e => (.error e, { s1 with isSyncing := false })
    | .ok passwordResult =>
      match syncBookmarks env with
      | .error e => (.error e, { s1 with isSyncing := false })
      | .ok bookmarkResult =>
        let s2 : SyncStoreState := { s1 with queue := [] }
        (.ok (.success now passwordResult bookmarkResult),
         { s2 with lastSync := some now, isSyncing := false })

/-! ## Sync service — two-task interleaving machine

`performSync` is `async`; every `await` is a suspension point at which
another queued call may run.  The machine below gives each task one program
point per `await` boundary of sync-service.js and lets an explicit schedule
interleave two calls.  Crucially, `entry` mirrors lines 332-341: the
`isSyncing` guard is read, and then the task suspends at
`await isAuthenticated()` *before* `isSyncing = true` is executed. -/

/-- Externally visible work done by a pass. -/
inductive SyncEff
  | fetchPasswordsEff
  | uploadPasswordsEff
  | fetchBookmarksEff
  | uploadBookmarksEff
  | drainQueueEff
  | saveTimestampEff
deriving DecidableEq

/-- Program points of one `performSync` call, one per `await` boundary. -/
inductive TaskPC
  | entry
  | afterAuth
  | afterLastSync
  | afterSettings
  | afterSyncPasswords
  | afterSyncBookmarks
  | afterQueue
  | afterSave
  | taskDone
deriving DecidableEq

/-- Completion status of one call. -/
inductive SyncOutcome
  | inProgress
  | success
  | notAuthenticated
deriving DecidableEq

/-- One task: where it is suspended and, once finished, its outcome. -/
structure TaskState where
  pc : TaskPC
  result : Option SyncOutcome
deriving DecidableEq

/-- Shared module state plus the tagged trace of external work. -/
structure EngineState where
  isSyncing : Bool
  trace : List (Nat × SyncEff)
deriving DecidableEq

/-- Run task `tid` from its current suspension point to the next one
(`authed` is what `isAuthenticated()` resolves to; all remote calls
succeed). -/
def stepTask (authed : Bool) (tid : Nat) (g : EngineState) (t : TaskState) :
    EngineState × TaskState :=
  match t.pc with
  | .entry =>
      if g.isSyncing then (g, { pc := .taskDone, result := some .inProgress })
      else (g, { t with pc := .afterAuth })
  | .afterAuth =>
      if !authed then (g, { pc := .taskDone, result := some .notAuthenticated })
      else ({ g with isSyncing := true }, { t with pc := .afterLastSync })
  | .afterLastSync => (g, { t with pc := .afterSettings })
  | .afterSettings =>
      ({ g with trace := g.trace ++ [(tid, .fetchPasswordsEff), (tid, .uploadPasswordsEff)] },
       { t with pc := .afterSyncPasswords })
  | .afterSyncPasswords =>
      ({ g with trace := g.trace ++ [(tid, .fetchBookmarksEff), (tid, .uploadBookmarksEff)] },
       { t with pc := .afterSyncBookmarks })
  | .afterSyncBookmarks =>
      ({ g with trace := g.trace ++ [(tid, .drainQueueEff)] }, { t with pc := .afterQueue })
  | .afterQueue =>
      ({ g with trace := g.trace ++ [(tid, .saveTimestampEff)] }, { t with pc := .afterSave })
  | .afterSave =>
      ({ g with isSyncing := false }, { pc := .taskDone, result := some .success })
  | .taskDone => (g, t)

/-- Two concurrent `performSync` calls plus the shared state. -/
structure TwoTasks where
  g : EngineState
  t0 : TaskState
  t1 : TaskState
deriving DecidableEq

/-- Run a schedule (`false` = step task 0, `true` = step task 1). -/
def runSched (authed : Bool) (sched : List Bool) (s : TwoTasks) : TwoTasks :=
  sched.foldl (fun s pick =>
    if pick then
      let (g, t) := stepTask authed 1 s.g s.t1
      { s with g := g, t1 := t }
    else
      let (g, t) := stepTask authed 0 s.g s.t0
      { s with g := g, t0 := t }) s

/-- Both calls freshly issued, engine idle. -/
def twoCallsInit : TwoTasks :=
  { g := { isSyncing := false, trace := [] }
    t0 := { pc := .entry, result := none }
    t1 := { pc := .entry, result := none } }

/-- An alternating schedule of the two calls: both run their `entry` segment
(guard check, then suspension at `await isAuthenticated()`) before either
resumes, then they interleave to completion. -/
def raceSched : List Bool :=
  [false, true, false, true, false, true, false, true,
   false, true, false, true, false, true, false, true]

/-- The machine state after running two concurrent `performSync` calls under
`raceSched` with authentication succeeding. -/
def raceFinal : TwoTasks := runSched true raceSched twoCallsInit

/-! ## Concrete crypto instances used to instantiate theorems on examples -/

/-- A small executable `CryptoPrims` instance.  Its AEAD prefixes the
plaintext with a tag determined by key and iv and checks that tag on
decryption, so it satisfies the round-trip and wrong-key-rejection
properties the platform guarantees for AES-GCM. -/
def toyPrims : CryptoPrims where
  pbkdf2 := fun h pwd salt iters len =>
    [(match h with | .sha256 => 1 | .sha512 => 2),
     pwd.foldl (fun a b => (a * 31 + b) % 251) 7,
     salt.foldl (fun a b => (a * 37 + b) % 251) 5,
     iters % 251, len % 251]
  sha256 := fun l => [l.foldl (fun a b => (a * 41 + b) % 251) 3]
  hmacSha512 := fun k d =>
    [k.foldl (fun a b => (a * 43 + b) % 251) 11,
     d.foldl (fun a b => (a * 47 + b) % 251) 13]
  aeadEnc := fun k iv p =>
    (k.length % 256) :: (k.map (fun b => b % 256) ++
      (iv.length % 256) :: (iv.map (fun b => b % 256) ++ p))
  aeadDec := fun k iv c =>
    let tag := (k.length % 256) :: (k.map (fun b => b % 256) ++
      (iv.length % 256) :: iv.map (fun b => b % 256))
    if c.take tag.length = tag then some (c.drop tag.length) else none

/-- A `CryptoPrims` instance whose PBKDF2 output length honours the requested
bit length (`len / 8` bytes), used to instantiate the key-length clause. -/
def lenPrims : CryptoPrims where
  pbkdf2 := fun _ pwd salt iters len =>
    List.replicate (len / 8) ((pwd.length + salt.length + iters) % 256)
  sha256 := fun l => List.replicate 32 (l.length % 256)
  hmacSha512 := fun k d => List.replicate 64 ((k.length + d.length) % 256)
  aeadEnc := fun _ _ p => p
  aeadDec := fun _ _ c => some c

/-! ## Helper lemmas: base64 round-trip -/

theorem b64val_b64char : ∀ s < 64, b64val (b64char s) = some s := by decide

theorem b64char_ne_61 (n : Nat) : b64char n ≠ 61 := by
  unfold b64char
  split <;> [omega; split <;> [omega; split <;> [omega; split <;> omega]]]

theorem b64char_ge_43 (n : Nat) : 43 ≤ b64char n := by
  unfold b64char
  split <;> [omega; split <;> [omega; split <;> [omega; split <;> omega]]]

theorem isB64Ws_eq_false_of_ge (c : Nat) (h : 33 ≤ c) : isB64Ws c = false := by
  simp only [isB64Ws, decide_eq_false_iff_not]
  omega

theorem mem_btoa_ge_43 (l : List Nat) : ∀ c ∈ btoa l, 43 ≤ c := by
  induction l using btoa.induct with
  | case1 => simp [btoa]
  | case2 b0 =>
      simp only [btoa, List.mem_cons, List.not_mem_nil, or_false]
      rintro c (rfl | rfl | rfl | rfl) <;> first | exact b64char_ge_43 _ | omega
  | case3 b0 b1 =>
      simp only [btoa, List.mem_cons, List.not_mem_nil, or_false]
      rintro c (rfl | rfl | rfl | rfl) <;> first | exact b64char_ge_43 _ | omega
  | case4 b0 b1 b2 rest ih =>
      simp only [btoa, List.mem_cons]
      rintro c (rfl | rfl | rfl | rfl | hc) <;>
        first | exact b64char_ge_43 _ | exact ih c hc

theorem btoa_filter (l : List Nat) :
    (btoa l).filter (fun c => !isB64Ws c) = btoa l := by
  refine List.filter_eq_self.mpr ?_
  intro c hc
  have := mem_btoa_ge_43 l c hc
  simp [isB64Ws_eq_false_of_ge c (by omega)]

theorem btoa_eq_nil : ∀ l : List Nat, btoa l = [] → l = [] := by
  intro l hl
  match l with
  | [] => rfl
  | [b0] => simp [btoa] at hl
  | [b0, b1] => simp [btoa] at hl
  | b0 :: b1 :: b2 :: rest => simp [btoa] at hl

theorem dec4last_pad2 (c0 c1 : Nat) : dec4last c0 c1 61 61 = dec2 c0 c1 := by
  simp [dec4last]

theorem dec4last_pad1 (c0 c1 c2 : Nat) (h : c2 ≠ 61) :
    dec4last c0 c1 c2 61 = dec3 c0 c1 c2 := by
  simp [dec4last, h]

theorem dec4last_nopad (c0 c1 c2 c3 : Nat) (h : c3 ≠ 61) :
    dec4last c0 c1 c2 c3 = dec4 c0 c1 c2 c3 := by
  simp [dec4last, h]

theorem atobCore_btoa (l : List Nat) (h : ∀ b ∈ l, b < 256) :
    atobCore (btoa l) = some l := by
  induction l using btoa.induct with
  | case1 => rfl
  | case2 b0 =>
      have hb0 : b0 < 256 := h b0 (by simp)
      have h0 := b64val_b64char (b0 / 4) (by omega)
      have h1 := b64val_b64char (b0 % 4 * 16) (by omega)
      simp [btoa, atobCore, dec4last_pad2, dec2, h0, h1]
      omega
  | case3 b0 b1 =>
      have hb0 : b0 < 256 := h b0 (by simp)
      have hb1 : b1 < 256 := h b1 (by simp)
      have h0 := b64val_b64char (b0 / 4) (by omega)
      have h1 := b64val_b64char (b0 % 4 * 16 + b1 / 16) (by omega)
      have h2 := b64val_b64char (b1 % 16 * 4) (by omega)
      simp [btoa, atobCore, dec4last_pad1 _ _ _ (b64char_ne_61 _), dec3, h0, h1, h2]
      omega
  | case4 b0 b1 b2 rest ih =>
      have hb0 : b0 < 256 := h b0 (by simp)
      have hb1 : b1 < 256 := h b1 (by simp)
      have hb2 : b2 < 256 := h b2 (by simp)
      have hrest : ∀ b ∈ rest, b < 256 := fun b hb => h b (by simp [hb])
      have h0 := b64val_b64char (b0 / 4) (by omega)
      have h1 := b64val_b64char (b0 % 4 * 16 + b1 / 16) (by omega)
      have h2 := b64val_b64char (b1 % 16 * 4 + b2 / 64) (by omega)
      have h3 := b64val_b64char (b2 % 64) (by omega)
      match hbr : btoa rest with
      | [] =>
          have hnil : rest = [] := btoa_eq_nil rest hbr
          subst hnil
          simp [btoa, hbr, atobCore, dec4last_nopad _ _ _ _ (b64char_ne_61 _),
            dec4, h0, h1, h2, h3]
          omega
      | x :: xs =>
          have ihr : atobCore (x :: xs) = some rest := hbr ▸ ih hrest
          simp [btoa, hbr, atobCore, dec4, h0, h1, h2, h3, ihr]
          omega

theorem atob_btoa (l : List Nat) (h : ∀ b ∈ l, b < 256) :
    atob (btoa l) = some l := by
  rw [atob, btoa_filter]
  exact atobCore_btoa l h

theorem base64_roundtrip (l : List Nat) (h : ∀ b ∈ l, b < 256) :
    base64ToArrayBuffer (arrayBufferToBase64 l) = some l :=
  atob_btoa l h

/-! ## Claim C1: seal/open round-trip -/

/-- C1: for every plaintext, master password and (salt, iv) drawn by the RNG,
decrypting `encrypt(plaintext, masterPassword)` with the same master password
returns the plaintext exactly.  The byte-bound hypotheses say the inputs and
the AEAD ciphertext are byte sequences (always true of `Uint8Array`s), and
`haead` is the AES-GCM round-trip guarantee at this key/iv/plaintext. -/
theorem encrypt_decrypt_roundtrip (pr : CryptoPrims)
    (plaintext masterPassword salt iv : List Nat)
    (hct : ∀ b ∈ pr.aeadEnc (deriveKey pr masterPassword salt PBKDF2_ITERATIONS) iv plaintext,
      b < 256)
    (hsalt : ∀ b ∈ salt, b < 256) (hiv : ∀ b ∈ iv, b < 256)
    (haead : pr.aeadDec (deriveKey pr masterPassword salt PBKDF2_ITERATIONS) iv
      (pr.aeadEnc (deriveKey pr masterPassword salt PBKDF2_ITERATIONS) iv plaintext)
      = some plaintext) :
    decrypt pr (encrypt pr plaintext masterPassword salt iv) masterPassword
      = .ok plaintext := by
  unfold encrypt decrypt
  simp only [base64_roundtrip _ hct, base64_roundtrip _ hsalt, base64_roundtrip _ hiv]
  have haead' : pr.aeadDec (deriveKey pr masterPassword salt 600000) iv
      (pr.aeadEnc (deriveKey pr masterPassword salt 600000) iv plaintext)
      = some plaintext := by
    simpa [PBKDF2_ITERATIONS] using haead
  simp [legacyIterCount, PBKDF2_ITERATIONS, haead']

/-- C1 witness: the round-trip evaluated at a concrete plaintext, password,
salt and iv with the executable `toyPrims` instance. -/
theorem encrypt_decrypt_roundtrip_witness :
    (∀ b ∈ toyPrims.aeadEnc (deriveKey toyPrims [112] [1, 2, 3] PBKDF2_ITERATIONS)
        [9, 8] [104, 105], b < 256) ∧
    decrypt toyPrims (encrypt toyPrims [104, 105] [112] [1, 2, 3] [9, 8]) [112]
      = .ok [104, 105] :=
  ⟨by decide,
   encrypt_decrypt_roundtrip toyPrims [104, 105] [112] [1, 2, 3] [9, 8]
     (by decide) (by decide) (by decide) (by decide)⟩

/-! ## Claim C2: wrong-secret / corrupted-ciphertext rejection -/

/-- C2 (amended): opening an envelope sealed under `mp1` with a different
master password `mp2` always fails with the single opaque error
(`'Decryption failed. Invalid password or corrupted data.'`), given the
AES-GCM authentication guarantee (`hauth`: the wrongly-derived key fails
authenticated decryption); and a corrupted envelope whose fields are still
valid base64 fails with that same single opaque error whenever authenticated
decryption rejects it.  (A corruption that breaks the base64 encoding itself
fails differently — see the counterexample.) -/
theorem decrypt_wrong_password_single_error (pr : CryptoPrims)
    (plaintext mp1 mp2 salt iv : List Nat)
    (hne : mp1 ≠ mp2)
    (hct : ∀ b ∈ pr.aeadEnc (deriveKey pr mp1 salt PBKDF2_ITERATIONS) iv plaintext, b < 256)
    (hsalt : ∀ b ∈ salt, b < 256) (hiv : ∀ b ∈ iv, b < 256)
    (hauth : pr.aeadDec (deriveKey pr mp2 salt PBKDF2_ITERATIONS) iv
      (pr.aeadEnc (deriveKey pr mp1 salt PBKDF2_ITERATIONS) iv plaintext) = none) :
    decrypt pr (encrypt pr plaintext mp1 salt iv) mp2 = .error .decryptionFailed ∧
    (∀ (e : EncryptedData) (mp ct saltB ivB : List Nat),
      base64ToArrayBuffer e.ciphertext = some ct →
      base64ToArrayBuffer e.salt = some saltB →
      base64ToArrayBuffer e.iv = some ivB →
      pr.aeadDec (deriveKey pr mp saltB (legacyIterCount e.iterations)) ivB ct = none →
      decrypt pr e mp = .error .decryptionFailed) := by
  constructor
  · unfold encrypt decrypt
    simp only [base64_roundtrip _ hct, base64_roundtrip _ hsalt, base64_roundtrip _ hiv]
    have hauth' : pr.aeadDec (deriveKey pr mp2 salt 600000) iv
        (pr.aeadEnc (deriveKey pr mp1 salt 600000) iv plaintext) = none := by
      simpa [PBKDF2_ITERATIONS] using hauth
    simp [legacyIterCount, PBKDF2_ITERATIONS, hauth']
  · intro e mp ct saltB ivB h1 h2 h3 h4
    unfold decrypt
    simp [h1, h2, h3, h4]

/-- C2 witness: wrong-password rejection and its hypotheses evaluated at a
concrete instance of `toyPrims`, whose AEAD rejects every wrong key. -/
theorem decrypt_wrong_password_single_error_witness :
    ([97] : List Nat) ≠ [98] ∧
    toyPrims.aeadDec (deriveKey toyPrims [98] [1, 2, 3] PBKDF2_ITERATIONS) [9, 8]
      (toyPrims.aeadEnc (deriveKey toyPrims [97] [1, 2, 3] PBKDF2_ITERATIONS) [9, 8]
        [104, 105]) = none ∧
    decrypt toyPrims (encrypt toyPrims [104, 105] [97] [1, 2, 3] [9, 8]) [98]
      = .error .decryptionFailed :=
  ⟨by decide, by decide,
   (decrypt_wrong_password_single_error toyPrims [104, 105] [97] [98] [1, 2, 3] [9, 8]
     (by decide) (by decide) (by decide) (by decide) (by decide)).1⟩

/-- C2 counterexample to the claim as stated: an envelope whose ciphertext
field is corrupted into the invalid base64 string `'!'` makes
`base64ToArrayBuffer` (encryption.js:159, *outside* the try/catch) throw, so
`decrypt` fails with a different error kind than the single opaque
`'Decryption failed. Invalid password or corrupted data.'` error. -/
theorem decrypt_corrupted_base64_distinct_error :
    decrypt toyPrims
      { ciphertext := [33], salt := btoa [1, 2, 3], iv := btoa [9, 8],
        iterations := some 600000 } [112] = .error .invalidBase64 ∧
    DecryptError.invalidBase64 ≠ DecryptError.decryptionFailed := by
  constructor
  · rfl
  · decide

/-! ## Claim C8: key-derivation structure -/

/-- C8: `deriveKey` performs exactly the two sequential stretching rounds the
specification describes — pepper the secret with the fixed application-wide
constant, round 1 with the caller's salt, the caller's work factor and
SHA-256, round 2 from round 1's output with `⌊n / 2⌋` iterations, salt
`SHA-256(caller salt ‖ 'round2')` and SHA-512 — and, when PBKDF2 honours the
requested bit length, the final key is 256 bits (32 bytes). -/
theorem deriveKey_two_round_structure (pr : CryptoPrims)
    (secret salt : List Nat) (n : Nat)
    (hlen : ∀ h pwd s it L, (pr.pbkdf2 h pwd s it L).length = L / 8) :
    deriveKey pr secret salt n = deriveKeySpecDescribed pr secret salt n ∧
    (deriveKey pr secret salt n).length = 32 := by
  refine ⟨rfl, ?_⟩
  simp [deriveKey, hlen, KEY_LENGTH]

/-- C8 witness: the two-round structure and 256-bit output evaluated at a
concrete secret, salt and work factor with `lenPrims`, whose PBKDF2 returns
`L / 8` bytes. -/
theorem deriveKey_two_round_structure_witness :
    deriveKey lenPrims [1] [2] 10 = deriveKeySpecDescribed lenPrims [1] [2] 10 ∧
    (deriveKey lenPrims [1] [2] 10).length = 32 :=
  deriveKey_two_round_structure lenPrims [1] [2] 10
    (fun _ _ _ _ L => by simp [lenPrims])

/-! ## Claim C10: `verifyPassword` totality and exactness -/

theorem or_eq_zero_iff_nat (a b : Nat) : a ||| b = 0 ↔ a = 0 ∧ b = 0 := by
  constructor
  · intro h
    refine ⟨Nat.zero_of_testBit_eq_false fun i => ?_,
            Nat.zero_of_testBit_eq_false fun i => ?_⟩ <;>
    · have h2 := congrArg (fun x => Nat.testBit x i) h
      simp [Nat.testBit_lor] at h2
      tauto
  · rintro ⟨rfl, rfl⟩; rfl

theorem foldl_or_xor_eq_zero (l : List (Nat × Nat)) (acc : Nat) :
    (l.foldl (fun r p => r ||| (p.1 ^^^ p.2)) acc = 0) ↔
      (acc = 0 ∧ ∀ p ∈ l, p.1 = p.2) := by
  induction l generalizing acc with
  | nil => simp
  | cons hd tl ih =>
      rw [List.foldl_cons, ih]
      rw [or_eq_zero_iff_nat, Nat.xor_eq_zero]
      constructor
      · rintro ⟨⟨hz, hhd⟩, hall⟩
        exact ⟨hz, by simpa [hhd] using hall⟩
      · rintro ⟨hz, hall⟩
        exact ⟨⟨hz, hall hd (by simp)⟩, fun p hp => hall p (by simp [hp])⟩

theorem eq_of_zip_pointwise :
    ∀ (a b : List Nat), a.length = b.length → (∀ p ∈ a.zip b, p.1 = p.2) → a = b := by
  intro a
  induction a with
  | nil => intro b hb _; simpa using hb.symm
  | cons x t ih =>
      intro b hb hall
      match b with
      | [] => simp at hb
      | y :: u =>
          have hx : x = y := hall (x, y) (by simp)
          have ht : t = u := ih u (by simpa using hb) (fun p hp => hall p (by simp [hp]))
          rw [hx, ht]

theorem zip_self_pointwise (a : List Nat) : ∀ p ∈ a.zip a, p.1 = p.2 := by
  induction a with
  | nil => simp
  | cons x t ih =>
      intro p hp
      rcases (by simpa using hp : p = (x, x) ∨ p ∈ t.zip t) with rfl | hp2
      · rfl
      · exact ih p hp2

/-- `constantTimeCompare` returns `true` exactly on equal strings. -/
theorem constantTimeCompare_iff (a b : List Nat) :
    constantTimeCompare a b = true ↔ a = b := by
  unfold constantTimeCompare
  by_cases hlen : a.length = b.length
  · rw [if_neg (by simp [hlen])]
    rw [beq_iff_eq, foldl_or_xor_eq_zero]
    constructor
    · rintro ⟨-, hall⟩
      exact eq_of_zip_pointwise a b hlen hall
    · rintro rfl
      exact ⟨rfl, zip_self_pointwise a⟩
  · rw [if_pos (by simpa using hlen)]
    constructor
    · intro h; exact absurd h (by simp)
    · rintro rfl; exact absurd rfl hlen

/-- C10: `verifyPassword` is a total Boolean function (every JS throw path is
caught and yields `false`): it returns `false` when the stored hash is not
valid JSON, when the `salt` field is missing (JS passes the string
`'undefined'` to `atob`, which throws inside the try), when the stored salt
is not valid base64, and when the `hash` field is missing; and when salt and
hash are present and the salt decodes, it returns `true` exactly when the
recomputed base64 HMAC string equals the stored one (so any mismatch in
content or length yields `false`). -/
theorem verifyPassword_total_and_exact (pr : CryptoPrims) (password : List Nat) :
    verifyPassword pr password none = false ∧
    (∀ rec0 : HashRec, rec0.salt = none → verifyPassword pr password (some rec0) = false) ∧
    (∀ (rec0 : HashRec) (s : List Nat), rec0.salt = some s →
      base64ToArrayBuffer s = none → verifyPassword pr password (some rec0) = false) ∧
    (∀ (rec0 : HashRec) (s saltB : List Nat), rec0.salt = some s →
      base64ToArrayBuffer s = some saltB → rec0.hash = none →
      verifyPassword pr password (some rec0) = false) ∧
    (∀ (rec0 : HashRec) (s saltB h : List Nat), rec0.salt = some s →
      base64ToArrayBuffer s = some saltB → rec0.hash = some h →
      (verifyPassword pr password (some rec0) = true ↔
        arrayBufferToBase64 (pr.hmacSha512 saltB (password ++ PEPPER)) = h)) := by
  refine ⟨rfl, ?_, ?_, ?_, ?_⟩
  · intro rec0 hs
    unfold verifyPassword
    have : base64ToArrayBuffer undefinedStr = none := by decide
    simp [hs, this]
  · intro rec0 s hs hdec
    unfold verifyPassword
    simp [hs, hdec]
  · intro rec0 s saltB hs hdec hh
    unfold verifyPassword
    simp [hs, hdec, hh]
  · intro rec0 s saltB h hs hdec hh
    unfold verifyPassword
    simp only [hs, Option.getD_some, hdec, hh]
    exact constantTimeCompare_iff _ _

/-- C10 witness: the decisive clauses evaluated at concrete inputs with
`toyPrims` — a matching stored hash verifies, and a missing salt field
yields `false`. -/
theorem verifyPassword_total_and_exact_witness :
    verifyPassword toyPrims [1]
      (some { salt := some (btoa [5, 6]),
              hash := some (arrayBufferToBase64 (toyPrims.hmacSha512 [5, 6] ([1] ++ PEPPER))) })
      = true ∧
    verifyPassword toyPrims [1] (some { salt := none, hash := some [65] }) = false :=
  ⟨((verifyPassword_total_and_exact toyPrims [1]).2.2.2.2
      { salt := some (btoa [5, 6]),
        hash := some (arrayBufferToBase64 (toyPrims.hmacSha512 [5, 6] ([1] ++ PEPPER))) }
      (btoa [5, 6]) [5, 6] (arrayBufferToBase64 (toyPrims.hmacSha512 [5, 6] ([1] ++ PEPPER)))
      rfl (by decide) rfl).mpr rfl,
   (verifyPassword_total_and_exact toyPrims [1]).2.1
      { salt := none, hash := some [65] } rfl⟩

/-! ## Helper lemmas: the conflict resolver -/

theorem foldl_opt_append {α β : Type} (f : α → Option β) (l : List α) (acc : List β) :
    l.foldl (fun cs x => cs ++ (f x).toList) acc = acc ++ l.filterMap f := by
  induction l generalizing acc with
  | nil => simp
  | cons hd tl ih =>
      rw [List.foldl_cons, ih]
      cases h : f hd <;> simp [List.filterMap_cons, h]

theorem detectConflicts_eq (A B : List Item) :
    detectConflicts A B = A.filterMap (conflictCheck (buildMap B)) := by
  unfold detectConflicts
  simpa using foldl_opt_append (conflictCheck (buildMap B)) A []

theorem resolve_lww_aux (cs : List Conflict) : ∀ kl kr : List Item,
    cs.foldl (fun (resolved : Resolved) (c : Conflict) =>
      if c.remoteTime < c.localTime then
        { resolved with keepLocal := resolved.keepLocal ++ [c.locItem] }
      else
        { resolved with keepRemote := resolved.keepRemote ++ [c.remItem] })
      { keepLocal := kl, keepRemote := kr }
    = { keepLocal := kl ++ cs.filterMap
          (fun c => if c.remoteTime < c.localTime then some c.locItem else none),
        keepRemote := kr ++ cs.filterMap
          (fun c => if c.remoteTime < c.localTime then none else some c.remItem) } := by
  induction cs with
  | nil => simp
  | cons hd tl ih =>
      intro kl kr
      rw [List.foldl_cons]
      by_cases hc : hd.remoteTime < hd.localTime
      · rw [if_pos hc]
        rw [ih]
        simp [List.filterMap_cons, hc]
      · rw [if_neg hc]
        rw [ih]
        simp [List.filterMap_cons, hc]

theorem resolve_lww_eq (cs : List Conflict) :
    resolveConflictsLastWriteWins cs =
      { keepLocal := cs.filterMap
          (fun c => if c.remoteTime < c.localTime then some c.locItem else none),
        keepRemote := cs.filterMap
          (fun c => if c.remoteTime < c.localTime then none else some c.remItem) } := by
  unfold resolveConflictsLastWriteWins
  simpa using resolve_lww_aux cs [] []

theorem mem_mapSet (m : List (Nat × Item)) (k : Nat) (v : Item) (p : Nat × Item)
    (h : p ∈ mapSet m k v) : p ∈ m ∨ p = (k, v) := by
  unfold mapSet at h
  by_cases ha : m.any (fun q => q.1 == k)
  · rw [if_pos ha] at h
    obtain ⟨q, hq, hqe⟩ := List.mem_map.mp h
    by_cases hk : q.1 = k
    · right
      rw [if_pos (by simpa using hk)] at hqe
      exact hqe.symm
    · left
      rw [if_neg (by simpa using hk)] at hqe
      exact hqe ▸ hq
  · rw [if_neg ha] at h
    rcases List.mem_append.mp h with h1 | h1
    · exact Or.inl h1
    · exact Or.inr (by simpa using h1)

theorem mapSet_keys (m : List (Nat × Item)) (k : Nat) (v : Item) :
    (mapSet m k v).map (fun p => p.1)
      = if m.any (fun p => p.1 == k) then m.map (fun p => p.1)
        else m.map (fun p => p.1) ++ [k] := by
  unfold mapSet
  by_cases ha : m.any (fun p => p.1 == k)
  · rw [if_pos ha, if_pos ha, List.map_map]
    refine List.map_congr_left ?_
    intro p _
    by_cases hk : p.1 = k
    · simp [hk]
    · simp [hk]
  · rw [if_neg ha, if_neg ha]
    simp

theorem key_mem_mapSet (m : List (Nat × Item)) (k k' : Nat) (v : Item) :
    k' ∈ (mapSet m k v).map (fun p => p.1) ↔ k' ∈ m.map (fun p => p.1) ∨ k' = k := by
  rw [mapSet_keys]
  by_cases ha : m.any (fun p => p.1 == k)
  · rw [if_pos ha]
    constructor
    · exact Or.inl
    · rintro (h | rfl)
      · exact h
      · obtain ⟨p, hp, hpk⟩ := List.any_eq_true.mp ha
        have hpk2 : p.1 = k' := by simpa using hpk
        exact hpk2 ▸ List.mem_map.mpr ⟨p, hp, rfl⟩
  · rw [if_neg ha]
    simp

theorem mem_buildMap_aux (l : List Item) : ∀ (acc : List (Nat × Item)) (p : Nat × Item),
    p ∈ l.foldl (fun m i => mapSet m i.id i) acc →
    p ∈ acc ∨ ∃ x ∈ l, p = (x.id, x) := by
  induction l with
  | nil => intro acc p h; exact Or.inl h
  | cons hd tl ih =>
      intro acc p h
      rw [List.foldl_cons] at h
      rcases ih (mapSet acc hd.id hd) p h with h1 | ⟨x, hx, rfl⟩
      · rcases mem_mapSet acc hd.id hd p h1 with h2 | rfl
        · exact Or.inl h2
        · exact Or.inr ⟨hd, by simp, rfl⟩
      · exact Or.inr ⟨x, by simp [hx], rfl⟩

theorem mem_buildMap (l : List Item) (p : Nat × Item) (h : p ∈ buildMap l) :
    ∃ x ∈ l, p = (x.id, x) := by
  rcases mem_buildMap_aux l [] p h with h1 | h2
  · simp at h1
  · exact h2

theorem buildMap_pair_id (l : List Item) : ∀ p ∈ buildMap l, p.2.id = p.1 := by
  intro p hp
  obtain ⟨x, _, rfl⟩ := mem_buildMap l p hp
  rfl

theorem key_mem_foldl (l : List Item) : ∀ (acc : List (Nat × Item)) (k : Nat),
    k ∈ acc.map (fun p => p.1) →
    k ∈ (l.foldl (fun m i => mapSet m i.id i) acc).map (fun p => p.1) := by
  induction l with
  | nil => intro acc k h; exact h
  | cons hd tl ih =>
      intro acc k h
      rw [List.foldl_cons]
      exact ih _ k ((key_mem_mapSet acc hd.id k hd).mpr (Or.inl h))

theorem key_mem_foldl_of_mem (l : List Item) : ∀ (acc : List (Nat × Item)) (x : Item),
    x ∈ l →
    x.id ∈ (l.foldl (fun m i => mapSet m i.id i) acc).map (fun p => p.1) := by
  induction l with
  | nil => intro acc x h; simp at h
  | cons hd tl ih =>
      intro acc x h
      rw [List.foldl_cons]
      rcases List.mem_cons.mp h with rfl | hx
      · exact key_mem_foldl tl _ _ ((key_mem_mapSet acc x.id x.id x).mpr (Or.inr rfl))
      · exact ih _ x hx

theorem key_mem_buildMap (l : List Item) (x : Item) (hx : x ∈ l) :
    x.id ∈ (buildMap l).map (fun p => p.1) :=
  key_mem_foldl_of_mem l [] x hx

theorem nodup_keys_mapSet (m : List (Nat × Item)) (k : Nat) (v : Item)
    (h : (m.map (fun p => p.1)).Nodup) :
    ((mapSet m k v).map (fun p => p.1)).Nodup := by
  rw [mapSet_keys]
  by_cases ha : m.any (fun p => p.1 == k)
  · rwa [if_pos ha]
  · rw [if_neg ha]
    have hk : k ∉ m.map (fun p => p.1) := by
      intro hmem
      obtain ⟨p, hp, hpe⟩ := List.mem_map.mp hmem
      exact ha (List.any_eq_true.mpr ⟨p, hp, by simpa using hpe⟩)
    rw [List.nodup_append]
    exact ⟨h, List.nodup_singleton k, by
      intro a haa hab
      rw [List.mem_singleton.mp hab] at haa
      exact hk haa⟩

theorem nodup_keys_foldl (l : List Item) : ∀ acc : List (Nat × Item),
    (acc.map (fun p => p.1)).Nodup →
    ((l.foldl (fun m i => mapSet m i.id i) acc).map (fun p => p.1)).Nodup := by
  induction l with
  | nil => intro acc h; exact h
  | cons hd tl ih => intro acc h; exact ih _ (nodup_keys_mapSet acc hd.id hd h)

theorem nodup_keys_buildMap (l : List Item) :
    ((buildMap l).map (fun p => p.1)).Nodup :=
  nodup_keys_foldl l [] (by simp)

theorem mapGet_some (m : List (Nat × Item)) (k : Nat) (v : Item)
    (h : mapGet m k = some v) : (k, v) ∈ m := by
  unfold mapGet at h
  match hf : m.find? (fun p => p.1 == k) with
  | none => rw [hf] at h; simp at h
  | some q =>
      rw [hf] at h
      have hq2 : q.2 = v := by simpa using h
      have hqm := List.mem_of_find?_eq_some hf
      have hq1 : q.1 = k := by simpa using List.find?_some hf
      have : q = (k, v) := Prod.ext hq1 hq2
      exact this ▸ hqm

theorem mapGet_eq_some_of_key (m : List (Nat × Item)) (k : Nat)
    (h : k ∈ m.map (fun p => p.1)) : ∃ v, mapGet m k = some v := by
  induction m with
  | nil => simp at h
  | cons q t ih =>
      by_cases hk : q.1 = k
      · refine ⟨q.2, ?_⟩
        unfold mapGet
        have hfind : List.find? (fun p => p.1 == k) (q :: t) = some q :=
          List.find?_cons_of_pos t (by simpa using hk)
        rw [hfind]
        rfl
      · rw [List.map_cons] at h
        have h2 : k ∈ t.map (fun p => p.1) := by
          rcases List.mem_cons.mp h with h3 | h3
          · exact absurd h3.symm hk
          · exact h3
        obtain ⟨v, hv⟩ := ih h2
        refine ⟨v, ?_⟩
        unfold mapGet at hv ⊢
        have hfind : List.find? (fun p => p.1 == k) (q :: t)
            = List.find? (fun p => p.1 == k) t :=
          List.find?_cons_of_neg t (by simpa using hk)
        rw [hfind]
        exact hv

theorem eq_of_mem_of_id_eq (l : List Item) (hnd : (l.map Item.id).Nodup)
    (x y : Item) (hx : x ∈ l) (hy : y ∈ l) (hxy : x.id = y.id) : x = y := by
  induction l with
  | nil => simp at hx
  | cons hd tl ih =>
      rw [List.map_cons, List.nodup_cons] at hnd
      rcases List.mem_cons.mp hx with hx1 | hx2
      · rcases List.mem_cons.mp hy with hy1 | hy2
        · rw [hx1, hy1]
        · exfalso
          apply hnd.1
          refine List.mem_map.mpr ⟨y, hy2, ?_⟩
          rw [← hxy, hx1]
      · rcases List.mem_cons.mp hy with hy1 | hy2
        · exfalso
          apply hnd.1
          refine List.mem_map.mpr ⟨x, hx2, ?_⟩
          rw [hxy, hy1]
        · exact ih hnd.2 hx2 hy2

theorem mapGet_buildMap_unique (l : List Item) (k : Nat) (v0 : Item)
    (hv0 : v0 ∈ l) (hk : v0.id = k)
    (huniq : ∀ x ∈ l, x.id = k → x = v0) :
    mapGet (buildMap l) k = some v0 := by
  obtain ⟨v, hv⟩ := mapGet_eq_some_of_key (buildMap l) k (hk ▸ key_mem_buildMap l v0 hv0)
  have hmem := mapGet_some (buildMap l) k v hv
  obtain ⟨x, hx, hpe⟩ := mem_buildMap l (k, v) hmem
  have hk1 : k = x.id := congrArg Prod.fst hpe
  have hv1 : v = x := congrArg Prod.snd hpe
  have hxv : x = v0 := huniq x hx hk1.symm
  rw [hv, hv1, hxv]

theorem mapGet_buildMap_self (l : List Item) (hnd : (l.map Item.id).Nodup)
    (x : Item) (hx : x ∈ l) : mapGet (buildMap l) x.id = some x :=
  mapGet_buildMap_unique l x.id x hx rfl
    (fun y hy hyid => eq_of_mem_of_id_eq l hnd y x hy hx hyid)

theorem values_filter_eq (m : List (Nat × Item)) (k : Nat)
    (hnd : (m.map (fun p => p.1)).Nodup)
    (hid : ∀ p ∈ m, p.2.id = p.1) :
    (m.map (fun p => p.2)).filter (fun x => x.id == k) = (mapGet m k).toList := by
  induction m with
  | nil => simp [mapGet]
  | cons q t ih =>
      have hq : q.2.id = q.1 := hid q (by simp)
      rw [List.map_cons, List.nodup_cons] at hnd
      by_cases hk : q.1 = k
      · subst hk
        rw [List.map_cons, List.filter_cons, if_pos (by simpa using hq)]
        have ht : (t.map (fun p => p.2)).filter (fun x => x.id == q.1) = [] := by
          rw [List.filter_eq_nil_iff]
          intro x hx
          obtain ⟨p, hp, rfl⟩ := List.mem_map.mp hx
          have hpid := hid p (by simp [hp])
          have hne : p.1 ≠ q.1 := fun he => hnd.1 (he ▸ List.mem_map.mpr ⟨p, hp, rfl⟩)
          simpa [hpid] using hne
        rw [ht]
        have hfind : List.find? (fun p => p.1 == q.1) (q :: t) = some q :=
          List.find?_cons_of_pos t (by simp)
        unfold mapGet
        rw [hfind]
        rfl
      · rw [List.map_cons, List.filter_cons, if_neg (by simp [hq, hk])]
        rw [ih hnd.2 (fun p hp => hid p (by simp [hp]))]
        unfold mapGet
        have hfind : List.find? (fun p => p.1 == k) (q :: t)
            = List.find? (fun p => p.1 == k) t :=
          List.find?_cons_of_neg t (by simpa using hk)
        rw [hfind]

theorem conflictCheck_inv (rm : List (Nat × Item)) (li : Item) (c : Conflict)
    (h : conflictCheck rm li = some c) :
    c.id = li.id ∧ c.locItem = li ∧ mapGet rm li.id = some c.remItem ∧
    c.localTime = li.updatedAt ∧ c.remoteTime = c.remItem.updatedAt := by
  unfold conflictCheck at h
  match hg : mapGet rm li.id with
  | none => rw [hg] at h; simp at h
  | some ri =>
      rw [hg] at h
      have h' : (if li ≠ ri ∧ li.updatedAt ≠ ri.updatedAt then
          some ({ id := li.id, locItem := li, remItem := ri,
                  localTime := li.updatedAt, remoteTime := ri.updatedAt } : Conflict)
          else none) = some c := h
      by_cases hcond : li ≠ ri ∧ li.updatedAt ≠ ri.updatedAt
      · rw [if_pos hcond, Option.some.injEq] at h'
        subst h'
        exact ⟨rfl, rfl, rfl, rfl, rfl⟩
      · rw [if_neg hcond] at h'
        simp at h'

theorem conflictCheck_mk (rm : List (Nat × Item)) (li ri : Item)
    (hg : mapGet rm li.id = some ri) (hne : li ≠ ri)
    (ht : li.updatedAt ≠ ri.updatedAt) :
    conflictCheck rm li = some
      { id := li.id
        locItem := li
        remItem := ri
        localTime := li.updatedAt
        remoteTime := ri.updatedAt } := by
  unfold conflictCheck
  rw [hg]
  show (if li ≠ ri ∧ li.updatedAt ≠ ri.updatedAt then
      some ({ id := li.id, locItem := li, remItem := ri,
              localTime := li.updatedAt, remoteTime := ri.updatedAt } : Conflict)
      else none) = _
  rw [if_pos ⟨hne, ht⟩]

theorem conflicts_shape (A B : List Item) (c : Conflict)
    (hc : c ∈ detectConflicts A B) :
    c.locItem ∈ A ∧ c.locItem.id = c.id ∧
    mapGet (buildMap B) c.id = some c.remItem ∧ c.remItem.id = c.id ∧
    c.localTime = c.locItem.updatedAt ∧ c.remoteTime = c.remItem.updatedAt := by
  rw [detectConflicts_eq] at hc
  obtain ⟨y, hy, hcy⟩ := List.mem_filterMap.mp hc
  obtain ⟨h1, h2, h3, h4, h5⟩ := conflictCheck_inv _ _ _ hcy
  have h2s : y = c.locItem := h2.symm
  subst h2s
  have hrid : c.remItem.id = c.id := by
    have hmem := mapGet_some _ _ _ h3
    have := buildMap_pair_id B _ hmem
    rw [this, h1]
  exact ⟨hy, h1.symm, h1 ▸ h3, hrid, h4, h5⟩

/-- The last-write-wins branch of `mergeItems` written out: non-conflicting
items of both sides, then the conflict winners, deduplicated through a JS
`Map`. -/
theorem mergeItems_lww_eq (A B : List Item) (h : detectConflicts A B ≠ []) :
    mergeItems A B "last-write-wins" =
      { merged := (buildMap
          (A.filter (fun item => !((detectConflicts A B).map (fun c => c.id)).contains item.id) ++
           B.filter (fun item => !((detectConflicts A B).map (fun c => c.id)).contains item.id) ++
           (resolveConflictsLastWriteWins (detectConflicts A B)).keepLocal ++
           (resolveConflictsLastWriteWins (detectConflicts A B)).keepRemote)).map (fun p => p.2)
        conflicts := [] } := by
  simp only [mergeItems]
  rw [if_neg (by simpa [List.length_eq_zero] using h)]
  simp only [if_true]

/-! ## Claim C3: last-write-wins keeps exactly the newer item -/

/-- C3: when, with per-side unique ids, local list `A` and remote list `B`
both contain an item with the same id, differing content and differing
`updatedAt`, the `'last-write-wins'` merge result contains for that id
exactly the item with the strictly greater `updatedAt` and not the other,
whichever side the newer item is on. -/
theorem mergeItems_lww_newer_wins (A B : List Item) (locI remI : Item)
    (hA : (A.map Item.id).Nodup) (hB : (B.map Item.id).Nodup)
    (hloc : locI ∈ A) (hrem : remI ∈ B) (hid : remI.id = locI.id)
    (hne : locI ≠ remI) (ht : locI.updatedAt ≠ remI.updatedAt) :
    (locI.updatedAt < remI.updatedAt →
      (mergeItems A B "last-write-wins").merged.filter (fun x => x.id == locI.id) = [remI] ∧
      locI ∉ (mergeItems A B "last-write-wins").merged) ∧
    (remI.updatedAt < locI.updatedAt →
      (mergeItems A B "last-write-wins").merged.filter (fun x => x.id == locI.id) = [locI] ∧
      remI ∉ (mergeItems A B "last-write-wins").merged) := by
  have hgB : mapGet (buildMap B) locI.id = some remI := by
    have hself := mapGet_buildMap_self B hB remI hrem
    rwa [hid] at hself
  have hcc : conflictCheck (buildMap B) locI
      = some ⟨locI.id, locI, remI, locI.updatedAt, remI.updatedAt⟩ :=
    conflictCheck_mk (buildMap B) locI remI hgB hne ht
  have hc0 : (⟨locI.id, locI, remI, locI.updatedAt, remI.updatedAt⟩ : Conflict)
      ∈ detectConflicts A B := by
    rw [detectConflicts_eq]
    exact List.mem_filterMap.mpr ⟨locI, hloc, hcc⟩
  have hC : detectConflicts A B ≠ [] := List.ne_nil_of_mem hc0
  have huniqc : ∀ c ∈ detectConflicts A B, c.id = locI.id →
      c.locItem = locI ∧ c.remItem = remI ∧
      c.localTime = locI.updatedAt ∧ c.remoteTime = remI.updatedAt := by
    intro c hc hcid
    obtain ⟨hlA, hlid, hgc, hrid, hlt2, hrt2⟩ := conflicts_shape A B c hc
    have hlocc : c.locItem = locI :=
      eq_of_mem_of_id_eq A hA c.locItem locI hlA hloc (hlid.trans hcid)
    have hremc : c.remItem = remI := by
      rw [hcid, hgB] at hgc
      exact (Option.some.inj hgc).symm
    exact ⟨hlocc, hremc, by rw [hlt2, hlocc], by rw [hrt2, hremc]⟩
  have hid_in_cids : locI.id ∈ (detectConflicts A B).map (fun c => c.id) :=
    List.mem_map.mpr ⟨⟨locI.id, locI, remI, locI.updatedAt, remI.updatedAt⟩, hc0, rfl⟩
  have hnotmem : ∀ (L : List Item) (x : Item),
      x ∈ L.filter (fun item => !((detectConflicts A B).map (fun c => c.id)).contains item.id) →
      x.id ∉ (detectConflicts A B).map (fun c => c.id) := by
    intro L x hx
    have hpred := (List.mem_filter.mp hx).2
    simpa using hpred
  have hseg1 : ∀ x ∈ A.filter
      (fun item => !((detectConflicts A B).map (fun c => c.id)).contains item.id),
      x.id ≠ locI.id := by
    intro x hx hxe
    exact hnotmem A x hx (hxe.symm ▸ hid_in_cids)
  have hseg2 : ∀ x ∈ B.filter
      (fun item => !((detectConflicts A B).map (fun c => c.id)).contains item.id),
      x.id ≠ locI.id := by
    intro x hx hxe
    exact hnotmem B x hx (hxe.symm ▸ hid_in_cids)
  have hkL : ∀ y ∈ (resolveConflictsLastWriteWins (detectConflicts A B)).keepLocal,
      y.id = locI.id → y = locI ∧ remI.updatedAt < locI.updatedAt := by
    intro y hy hyid
    rw [resolve_lww_eq] at hy
    obtain ⟨c, hc, hcy⟩ := List.mem_filterMap.mp hy
    by_cases hcond : c.remoteTime < c.localTime
    · rw [if_pos hcond] at hcy
      have hyc : c.locItem = y := Option.some.inj hcy
      obtain ⟨-, hlid, -, -, -, -⟩ := conflicts_shape A B c hc
      have hcid : c.id = locI.id := by rw [← hlid, hyc, hyid]
      obtain ⟨hlocc, hremc, hltc, hrtc⟩ := huniqc c hc hcid
      refine ⟨by rw [← hyc, hlocc], ?_⟩
      rwa [hltc, hrtc] at hcond
    · rw [if_neg hcond] at hcy
      simp at hcy
  have hkR : ∀ y ∈ (resolveConflictsLastWriteWins (detectConflicts A B)).keepRemote,
      y.id = locI.id → y = remI ∧ ¬(remI.updatedAt < locI.updatedAt) := by
    intro y hy hyid
    rw [resolve_lww_eq] at hy
    obtain ⟨c, hc, hcy⟩ := List.mem_filterMap.mp hy
    by_cases hcond : c.remoteTime < c.localTime
    · rw [if_pos hcond] at hcy
      simp at hcy
    · rw [if_neg hcond] at hcy
      have hyc : c.remItem = y := Option.some.inj hcy
      obtain ⟨-, -, -, hrid, -, -⟩ := conflicts_shape A B c hc
      have hcid : c.id = locI.id := by rw [← hrid, hyc, hyid]
      obtain ⟨hlocc, hremc, hltc, hrtc⟩ := huniqc c hc hcid
      refine ⟨by rw [← hyc, hremc], ?_⟩
      rwa [hltc, hrtc] at hcond
  have hkLmemb : remI.updatedAt < locI.updatedAt →
      locI ∈ (resolveConflictsLastWriteWins (detectConflicts A B)).keepLocal := by
    intro hl
    rw [resolve_lww_eq]
    refine List.mem_filterMap.mpr
      ⟨⟨locI.id, locI, remI, locI.updatedAt, remI.updatedAt⟩, hc0, ?_⟩
    show (if remI.updatedAt < locI.updatedAt then some locI else none) = some locI
    rw [if_pos hl]
  have hkRmemb : ¬(remI.updatedAt < locI.updatedAt) →
      remI ∈ (resolveConflictsLastWriteWins (detectConflicts A B)).keepRemote := by
    intro hnl
    rw [resolve_lww_eq]
    refine List.mem_filterMap.mpr
      ⟨⟨locI.id, locI, remI, locI.updatedAt, remI.updatedAt⟩, hc0, ?_⟩
    show (if remI.updatedAt < locI.updatedAt then none else some remI) = some remI
    rw [if_neg hnl]
  have key : ∀ (MX : List Item) (w : Item), w.id = locI.id → w ∈ MX →
      (∀ x ∈ MX, x.id = locI.id → x = w) →
      ((buildMap MX).map (fun p => p.2)).filter (fun x => x.id == locI.id) = [w] := by
    intro MX w hwid hwmem hall
    rw [values_filter_eq (buildMap MX) locI.id (nodup_keys_buildMap MX) (buildMap_pair_id MX),
      mapGet_buildMap_unique MX locI.id w hwmem hwid hall]
    rfl
  have keyNot : ∀ (MX : List Item) (w lo : Item),
      (∀ x ∈ MX, x.id = locI.id → x = w) → lo.id = locI.id → lo ≠ w →
      lo ∉ (buildMap MX).map (fun p => p.2) := by
    intro MX w lo hall hloid hlw hmem
    obtain ⟨p, hp, hpe⟩ := List.mem_map.mp hmem
    obtain ⟨x, hx, rfl⟩ := mem_buildMap MX p hp
    have hxlo : x = lo := hpe
    apply hlw
    rw [← hxlo]
    exact hall x hx (by rw [hxlo, hloid])
  rw [mergeItems_lww_eq A B hC]
  have hallmem : ∀ x ∈ (A.filter
        (fun item => !((detectConflicts A B).map (fun c => c.id)).contains item.id) ++
      B.filter (fun item => !((detectConflicts A B).map (fun c => c.id)).contains item.id) ++
      (resolveConflictsLastWriteWins (detectConflicts A B)).keepLocal ++
      (resolveConflictsLastWriteWins (detectConflicts A B)).keepRemote),
      x.id = locI.id →
      (x = locI ∧ remI.updatedAt < locI.updatedAt) ∨
      (x = remI ∧ ¬(remI.updatedAt < locI.updatedAt)) := by
    intro x hx hxid
    rcases List.mem_append.mp hx with h1 | h4
    rcases List.mem_append.mp h1 with h2 | h3
    rcases List.mem_append.mp h2 with h5 | h6
    · exact absurd hxid (hseg1 x h5)
    · exact absurd hxid (hseg2 x h6)
    · exact Or.inl (hkL x h3 hxid)
    · exact Or.inr (hkR x h4 hxid)
  constructor
  · intro hlt
    have hnl : ¬(remI.updatedAt < locI.updatedAt) := by omega
    have hwmem : remI ∈ (A.filter
          (fun item => !((detectConflicts A B).map (fun c => c.id)).contains item.id) ++
        B.filter (fun item => !((detectConflicts A B).map (fun c => c.id)).contains item.id) ++
        (resolveConflictsLastWriteWins (detectConflicts A B)).keepLocal ++
        (resolveConflictsLastWriteWins (detectConflicts A B)).keepRemote) :=
      List.mem_append.mpr (Or.inr (hkRmemb hnl))
    have hall : ∀ x ∈ (A.filter
          (fun item => !((detectConflicts A B).map (fun c => c.id)).contains item.id) ++
        B.filter (fun item => !((detectConflicts A B).map (fun c => c.id)).contains item.id) ++
        (resolveConflictsLastWriteWins (detectConflicts A B)).keepLocal ++
        (resolveConflictsLastWriteWins (detectConflicts A B)).keepRemote),
        x.id = locI.id → x = remI := by
      intro x hx hxid
      rcases hallmem x hx hxid with ⟨-, hcon⟩ | ⟨hxe, -⟩
      · exact absurd hcon hnl
      · exact hxe
    exact ⟨key _ remI hid hwmem hall, keyNot _ remI locI hall rfl hne⟩
  · intro hgt
    have hwmem : locI ∈ (A.filter
          (fun item => !((detectConflicts A B).map (fun c => c.id)).contains item.id) ++
        B.filter (fun item => !((detectConflicts A B).map (fun c => c.id)).contains item.id) ++
        (resolveConflictsLastWriteWins (detectConflicts A B)).keepLocal ++
        (resolveConflictsLastWriteWins (detectConflicts A B)).keepRemote) :=
      List.mem_append.mpr (Or.inl (List.mem_append.mpr (Or.inr (hkLmemb hgt))))
    have hall : ∀ x ∈ (A.filter
          (fun item => !((detectConflicts A B).map (fun c => c.id)).contains item.id) ++
        B.filter (fun item => !((detectConflicts A B).map (fun c => c.id)).contains item.id) ++
        (resolveConflictsLastWriteWins (detectConflicts A B)).keepLocal ++
        (resolveConflictsLastWriteWins (detectConflicts A B)).keepRemote),
        x.id = locI.id → x = locI := by
      intro x hx hxid
      rcases hallmem x hx hxid with ⟨hxe, -⟩ | ⟨-, hcon⟩
      · exact hxe
      · exact absurd hgt hcon
    exact ⟨key _ locI rfl hwmem hall, keyNot _ locI remI hall hid (Ne.symm hne)⟩

/-- C3 witness: a concrete conflicting pair (same id 1, differing content,
local updated at 5, remote at 9): the merge keeps exactly the remote item
for id 1 and the older local item is absent. -/
theorem mergeItems_lww_newer_wins_witness :
    (mergeItems [⟨1, 5, 0⟩] [⟨1, 9, 1⟩] "last-write-wins").merged.filter
      (fun x => x.id == 1) = [⟨1, 9, 1⟩] ∧
    (⟨1, 5, 0⟩ : Item) ∉ (mergeItems [⟨1, 5, 0⟩] [⟨1, 9, 1⟩] "last-write-wins").merged :=
  (mergeItems_lww_newer_wins [⟨1, 5, 0⟩] [⟨1, 9, 1⟩] ⟨1, 5, 0⟩ ⟨1, 9, 1⟩
    (by decide) (by decide) (by decide) (by decide) rfl
    (by decide) (by decide)).1 (by decide)

/-! ## Claim C9: object-spread semantics of `addPassword`/`addBookmark` -/

/-- C9: because the generated id is spread *before* the caller's fields, an
entry object carrying its own `id` keeps that id rather than the fresh UUID
(`input.id.getD uuid`), while caller-supplied `createdAt`, `updatedAt` and
`deletedAt` are always discarded: the literal fields placed after the spread
force the call-time timestamps and `null`.  Both `addPassword` and
`addBookmark` append exactly this entry. -/
theorem addEntry_spread_semantics (uuid : Nat) (now : Int) (input : ObjFields)
    (v : VaultData) :
    (buildEntry uuid now input).id = some (input.id.getD uuid) ∧
    (buildEntry uuid now input).data = input.data ∧
    (buildEntry uuid now input).createdAt = some now ∧
    (buildEntry uuid now input).updatedAt = some now ∧
    (buildEntry uuid now input).deletedAt = some none ∧
    (addPassword uuid now input v).2.passwords = v.passwords ++ [buildEntry uuid now input] ∧
    (addBookmark uuid now input v).2.bookmarks = v.bookmarks ++ [buildEntry uuid now input] := by
  refine ⟨?_, ?_, rfl, rfl, rfl, rfl, rfl⟩
  · cases h : input.id <;> simp [buildEntry, ObjFields.spread, h]
  · cases h : input.data <;> simp [buildEntry, ObjFields.spread, h]

/-! ## Claim C4: `updatedAt` across vault mutations -/

/-- `updateAt` applied to a list split at its first id match rewrites exactly
the matching element. -/
theorem updateAt_first_match (pre : List ObjFields) (x : ObjFields)
    (post : List ObjFields) (pid : Nat) (f : ObjFields → ObjFields)
    (hx : x.id = some pid) (hpre : ∀ y ∈ pre, y.id ≠ some pid) :
    updateAt (pre ++ x :: post) pid f = some (pre ++ f x :: post) := by
  induction pre with
  | nil => simp [updateAt, hx]
  | cons p t ih =>
      have hp : p.id ≠ some pid := hpre p (by simp)
      rw [List.cons_append, updateAt, if_neg hp,
        ih (fun y hy => hpre y (by simp [hy]))]
      rfl

/-- C4 (amended): on the item a mutation affects (the first entry whose id
matches), `addPassword` and `updatePassword` set `updatedAt` to the mutation
time, but `deletePassword` sets only `deletedAt` and leaves `updatedAt`
unchanged (vault.js assigns `passwords[index].deletedAt` alone).  Per-item
`updatedAt` is therefore still non-decreasing when mutation times are
non-decreasing — updates stamp the current time, deletes keep the old one —
but a soft delete does *not* stamp the mutation time. -/
theorem vault_mutations_updatedAt (now : Int) (uuid pid : Nat)
    (input updates : ObjFields) (v : VaultData)
    (pre post : List ObjFields) (x : ObjFields)
    (hsplit : v.passwords = pre ++ x :: post)
    (hx : x.id = some pid)
    (hpre : ∀ y ∈ pre, y.id ≠ some pid) :
    (buildEntry uuid now input).updatedAt = some now ∧
    updatePassword now pid updates v
      = .ok { v with passwords :=
          pre ++ ((x.spread updates).spread { updatedAt := some now }) :: post } ∧
    ((x.spread updates).spread { updatedAt := some now }).updatedAt = some now ∧
    deletePassword now pid v
      = .ok { v with passwords :=
          pre ++ { x with deletedAt := some (some now) } :: post } ∧
    ({ x with deletedAt := some (some now) } : ObjFields).updatedAt = x.updatedAt := by
  refine ⟨rfl, ?_, rfl, ?_, rfl⟩
  · unfold updatePassword
    rw [hsplit, updateAt_first_match pre x post pid _ hx hpre]
  · unfold deletePassword
    rw [hsplit, updateAt_first_match pre x post pid _ hx hpre]

/-- C4 witness: the three mutations evaluated on a one-entry vault at
concrete times (entry last updated at 5, mutations at time 9). -/
theorem vault_mutations_updatedAt_witness :
    (buildEntry 3 9 { data := some 7 }).updatedAt = some 9 ∧
    updatePassword 9 1 { data := some 2 }
        { passwords := [⟨some 1, some 7, some 0, some 5, some none⟩], bookmarks := [] }
      = .ok { passwords := [⟨some 1, some 2, some 0, some 9, some none⟩], bookmarks := [] } ∧
    (⟨some 1, some 2, some 0, some 9, some none⟩ : ObjFields).updatedAt = some 9 ∧
    deletePassword 9 1
        { passwords := [⟨some 1, some 7, some 0, some 5, some none⟩], bookmarks := [] }
      = .ok { passwords := [⟨some 1, some 7, some 0, some 5, some (some 9)⟩], bookmarks := [] } ∧
    (⟨some 1, some 7, some 0, some 5, some (some 9)⟩ : ObjFields).updatedAt = some 5 :=
  vault_mutations_updatedAt 9 3 1 { data := some 7 } { data := some 2 }
    { passwords := [⟨some 1, some 7, some 0, some 5, some none⟩], bookmarks := [] }
    [] [] ⟨some 1, some 7, some 0, some 5, some none⟩ rfl rfl (by simp)

/-- C4 counterexample to the claim as stated: soft-deleting an entry whose
`updatedAt` is 5 at mutation time 10 stamps `deletedAt` but leaves
`updatedAt = 5`, not the mutation time. -/
theorem deletePassword_leaves_updatedAt :
    deletePassword 10 1
        { passwords := [⟨some 1, some 0, some 0, some 5, some none⟩], bookmarks := [] }
      = .ok { passwords := [⟨some 1, some 0, some 0, some 5, some (some 10)⟩], bookmarks := [] } ∧
    (some (5 : Int) ≠ some (10 : Int)) := by
  exact ⟨rfl, by decide⟩

/-! ## Claim C5: the `'manual'` strategy -/

/-- C5 (amended): with at least one detected conflict and any strategy other
than `'last-write-wins'` (in particular `'manual'`), `mergeItems` returns the
full unresolved conflict list together with the *local items unchanged* —
conflicting ids are not excluded and items unique to the remote side are not
merged. -/
theorem mergeItems_manual_returns_local (A B : List Item)
    (h : detectConflicts A B ≠ []) :
    mergeItems A B "manual" = { merged := A, conflicts := detectConflicts A B } := by
  unfold mergeItems
  rw [if_neg (by simpa [List.length_eq_zero] using h), if_neg (by decide)]

/-- C5 witness: the manual-strategy behaviour evaluated on a concrete
conflicting pair of lists. -/
theorem mergeItems_manual_returns_local_witness :
    detectConflicts [⟨1, 10, 0⟩] [⟨1, 20, 1⟩] ≠ [] ∧
    mergeItems [⟨1, 10, 0⟩] [⟨1, 20, 1⟩] "manual"
      = { merged := [⟨1, 10, 0⟩], conflicts := detectConflicts [⟨1, 10, 0⟩] [⟨1, 20, 1⟩] } :=
  ⟨by decide, mergeItems_manual_returns_local [⟨1, 10, 0⟩] [⟨1, 20, 1⟩] (by decide)⟩

/-- C5 counterexample to the claim as stated: local `[⟨1,10,0⟩]`, remote
`[⟨1,20,1⟩, ⟨2,5,7⟩]` has one conflict (id 1) and one remote-unique item
(id 2); the claimed merged result is the non-conflicting subset `[⟨2,5,7⟩]`,
but the code returns the local list: the conflicting local item is present
and the remote-unique item is absent. -/
theorem mergeItems_manual_counterexample :
    (mergeItems [⟨1, 10, 0⟩] [⟨1, 20, 1⟩, ⟨2, 5, 7⟩] "manual").conflicts ≠ [] ∧
    (⟨1, 10, 0⟩ : Item) ∈ (mergeItems [⟨1, 10, 0⟩] [⟨1, 20, 1⟩, ⟨2, 5, 7⟩] "manual").merged ∧
    (⟨2, 5, 7⟩ : Item) ∉ (mergeItems [⟨1, 10, 0⟩] [⟨1, 20, 1⟩, ⟨2, 5, 7⟩] "manual").merged := by
  decide

/-! ## Claim C6: the single-flight guard -/

/-- C6 (violated by the code): `isSyncing` is only assigned *after*
`await isAuthenticated()` (sync-service.js:332-341), so a second
`performSync` call arriving while the first is suspended at that await
passes the `isSyncing` guard.  Under schedule `raceSched` both calls
complete with `success` — the second does not report `in_progress` — and
the trace shows both tasks performing fetch/upload sync work: two sync
passes run concurrently. -/
theorem performSync_double_run :
    raceFinal.t0.result = some .success ∧
    raceFinal.t1.result = some .success ∧
    raceFinal.t1.result ≠ some .inProgress ∧
    (0, SyncEff.fetchPasswordsEff) ∈ raceFinal.g.trace ∧
    (1, SyncEff.fetchPasswordsEff) ∈ raceFinal.g.trace ∧
    (0, SyncEff.uploadPasswordsEff) ∈ raceFinal.g.trace ∧
    (1, SyncEff.uploadPasswordsEff) ∈ raceFinal.g.trace := by
  decide

/-! ## Claim C7: pass-level failure semantics -/

/-- C7: if fetching or uploading either collection fails, `performSync`
propagates that error as the single pass-level failure, returns the engine
to idle (`isSyncing = false`), and leaves the last-sync watermark (and the
offline queue) untouched, so the next pass retries from the same `since`
point. -/
theorem performSync_failure_aborts (env : SyncEnv) (now : Int)
    (s : SyncStoreState) (e : String)
    (hidle : s.isSyncing = false)
    (hauth : env.authed = true)
    (hfail : syncPasswords env = .error e ∨
      ((∃ p, syncPasswords env = .ok p) ∧ syncBookmarks env = .error e)) :
    performSync env now s = (.error e, { s with isSyncing := false }) := by
  unfold performSync
  rw [if_neg (by simp [hidle]), if_neg (by simp [hauth])]
  rcases hfail with hf | ⟨⟨p, hp⟩, hb⟩
  · rw [hf]
  · rw [hp, hb]

/-- C7 witness: a pass whose remote password fetch fails, evaluated at a
concrete state: the error propagates, the flag ends false, and watermark and
queue are unchanged. -/
theorem performSync_failure_aborts_witness :
    performSync
      { authed := true, localPasswords := [],
        remotePasswords := .error "Failed to fetch passwords",
        uploadPasswordsOk := .ok (), localBookmarks := [],
        remoteBookmarks := .ok [], uploadBookmarksOk := .ok (),
        conflictResolution := "last-write-wins" } 50
      { isSyncing := false, lastSync := some 42, queue := [7] }
      = (.error "Failed to fetch passwords",
         { isSyncing := false, lastSync := some 42, queue := [7] }) :=
  performSync_failure_aborts
    { authed := true, localPasswords := [],
      remotePasswords := .error "Failed to fetch passwords",
      uploadPasswordsOk := .ok (), localBookmarks := [],
      remoteBookmarks := .ok [], uploadBookmarksOk := .ok (),
      conflictResolution := "last-write-wins" } 50
    { isSyncing := false, lastSync := some 42, queue := [7] }
    "Failed to fetch passwords" rfl rfl (Or.inl rfl)

end SecureSync
